import Mathlib

/-!
Shallow embedding of the text-parsing and classification core of
controlx-io/control-mate-utils (`main.go`) together with proofs about it.

Go strings are modelled as Lean `String`; the Go standard-library string
operations used by the program (`strings.ToUpper`, `strings.Contains`,
`strings.Split`, `strings.Fields`, `strings.Join`, `strings.TrimSpace`,
`strings.Index`, `strconv.Atoi`) are given explicit executable models below,
restricted to the Latin-1/ASCII character behaviour that the parsed command
output uses. External process execution is modelled by passing the command
result (`Except` failure/output) as an explicit argument.
-/

/-- Model of Go `unicode.IsSpace` restricted to the Latin-1 range:
space, \t, \n, \v, \f, \r, NEL (U+0085) and NBSP (U+00A0). -/
def goIsSpace (c : Char) : Bool :=
  c = ' ' || c = '\t' || c = '\n' || c = '\x0b' || c = '\x0c' || c = '\x0d' ||
  c = '\x85' || c = '\xA0'

/-- Model of Go `unicode.ToUpper` on one character, restricted to ASCII:
a lowercase ASCII letter (code points 97-122) is mapped 32 code points
down, everything else is unchanged. -/
def goToUpperChar (c : Char) : Char :=
  if 97 ≤ c.toNat ∧ c.toNat ≤ 122 then Char.ofNat (c.toNat - 32) else c

/-- Model of Go `strings.ToUpper` (ASCII letters). -/
def goToUpper (s : String) : String :=
  String.mk (s.toList.map goToUpperChar)

/-- `containsCL hay needle`: `needle` occurs as a contiguous sublist of
`hay` (executable; structural recursion on `hay`). -/
def containsCL : List Char → List Char → Bool
  | [], needle => needle.isEmpty
  | c :: t, needle => needle.isPrefixOf (c :: t) || containsCL t needle

/-- Model of Go `strings.Contains s substr`: `substr` occurs as a contiguous
substring of `s`. -/
def goContains (s substr : String) : Bool :=
  containsCL s.toList substr.toList

/-- `splitPCL p l`: split `l` at every character satisfying `p`, keeping
empty pieces; always returns one more piece than there are separator
characters. -/
def splitPCL (p : Char → Bool) : List Char → List (List Char)
  | [] => [[]]
  | c :: cs =>
    if p c then [] :: splitPCL p cs
    else
      match splitPCL p cs with
      | [] => [[c]]
      | h :: t => (c :: h) :: t

/-- Model of Go `strings.Split s sep` for a one-character separator (the
program only ever splits on `"\n"` and on `":"`). -/
def goSplit (s : String) (sep : Char) : List String :=
  (splitPCL (fun c => c = sep) s.toList).map String.mk

/-- Model of Go `strings.TrimSpace`: remove leading and trailing
white space (`goIsSpace`) characters. -/
def goTrimSpace (s : String) : String :=
  String.mk (((s.toList.dropWhile goIsSpace).reverse.dropWhile goIsSpace).reverse)

/-- Field splitter on character lists: split at every white space character
and drop the empty pieces, leaving the maximal white-space-free words.
This is Go `strings.Fields` (which "splits s around each instance of one
or more consecutive white space characters"). -/
def fieldsCL (l : List Char) : List (List Char) :=
  (splitPCL goIsSpace l).filter (fun w => !w.isEmpty)

/-- Model of Go `strings.Fields`. -/
def goFields (s : String) : List String :=
  (fieldsCL s.toList).map String.mk

/-- Model of Go `strings.Join l sep`. -/
def goJoin : List String → String → String
  | [], _ => ""
  | [s], _ => s
  | s :: rest, sep => s ++ sep ++ goJoin rest sep

/-- Model of Go `strconv.Atoi` (= `strconv.ParseInt` base 10, 64-bit):
an optional sign followed by at least one decimal digit, with the value
required to fit a signed 64-bit integer; every other string (and any
out-of-range value) yields an error, modelled as `none`. -/
def goAtoi (s : String) : Option Int :=
  match s.toList with
  | [] => none
  | c :: rest =>
    let signDigits : Bool × List Char :=
      if c = '+' then (false, rest)
      else if c = '-' then (true, rest)
      else (false, c :: rest)
    let digits := signDigits.2
    if digits = [] then none
    else if digits.all Char.isDigit then
      let mag : Int := digits.foldl (fun acc d => acc * 10 + ((d.toNat : Int) - 48)) 0
      let v : Int := if signDigits.1 then -mag else mag
      if -(2 ^ 63) ≤ v ∧ v ≤ 2 ^ 63 - 1 then some v else none
    else none

/-! ## Data model (`main.go` struct declarations) -/

/-- `WiFiNetwork` (main.go): one scanned network. -/
structure WiFiNetwork where
  SSID : String
  Signal : String
  Security : String
deriving DecidableEq, Repr

/-- `CurrentWiFi` (main.go): the currently connected network, if any. -/
structure CurrentWiFi where
  SSID : String
  Signal : String
  Security : String
  Connected : Bool
deriving DecidableEq, Repr

/-- `Process` (main.go): one row of `ps` output.  Go's `int` is modelled
as `Int`. -/
structure Process where
  PID : Int
  Name : String
  Status : String
  CPU : String
  Memory : String
  User : String
  Command : String
deriving DecidableEq, Repr

/-- `NetworkInterface` (main.go).  The `ip_addresses` slice is modelled as
`Option (List String)` so that a Go `nil` slice (which marshals to JSON
`null`) is distinguishable from an empty slice: `none` is `nil`,
`some l` a non-nil slice with elements `l`. -/
structure NetworkInterface where
  Name : String
  IPAddrs : Option (List String)
  Status : String
deriving DecidableEq, Repr

/-! ## Security classification (`normalizeSecurityType`, main.go:384-398) -/

/-- `normalizeSecurityType` (main.go:384-398): upper-case the raw security
string, then test containment in priority order WPA3, WPA2, WPA, WEP;
the empty string and `"--"` map to `"Open"`; everything else to
`"Unknown"`. -/
def normalizeSecurityType (security : String) : String :=
  if goContains (goToUpper security) "WPA3" then "WPA3"
  else if goContains (goToUpper security) "WPA2" then "WPA2"
  else if goContains (goToUpper security) "WPA" then "WPA"
  else if goContains (goToUpper security) "WEP" then "WEP"
  else if goToUpper security = "" ∨ goToUpper security = "--" then "Open"
  else "Unknown"

/-! ## WiFi scan parsing (`parseNmcliOutput`, main.go:348-382) -/

/-- One iteration of the loop body of `parseNmcliOutput` (main.go:352-378):
trim the line, drop it if blank, split on `":"`, require at least three
fields, drop empty and `"--"` SSIDs, and build the record with the signal
suffixed by `"%"` and the security normalized. -/
def nmcliScanLine (line : String) : Option WiFiNetwork :=
  let line := goTrimSpace line
  if line = "" then none
  else
    let parts := goSplit line ':'
    if parts.length ≥ 3 then
      let ssid := parts.getD 0 ""
      let signal := parts.getD 1 ""
      let security := parts.getD 2 ""
      if ssid = "" ∨ ssid = "--" then none
      else some ⟨ssid, signal ++ "%", normalizeSecurityType security⟩
    else none

/-- `parseNmcliOutput` (main.go:348-382): split the command output on
newlines and collect the records of the surviving lines. -/
def parseNmcliOutput (output : String) : List WiFiNetwork :=
  (goSplit output '\n').filterMap nmcliScanLine

/-- Modelled from the spec: `parseDelimitedRecords(text, delimiter,
minFields)` is the generic delimited-record parser the spec describes;
the repository inlines this logic in `parseNmcliOutput` and has no
separate function for it.  Following the spec's words: split into lines,
trim whitespace, skip blank lines, split each remaining line on the
delimiter, and discard lines with fewer than `minFields` fields. -/
def parseDelimitedRecords (text : String) (delimiter : Char) (minFields : Nat) :
    List (List String) :=
  ((((goSplit text '\n').map goTrimSpace).filter (fun l => l ≠ "")).map
      (fun l => goSplit l delimiter)).filter
    (fun fields => fields.length ≥ minFields)

/-! ## Current-connection parsing (`parseNmcliCurrentOutput`,
main.go:411-441) and lookup (`getCurrentWiFi`, main.go:400-409) -/

/-- The match test and record construction of the loop body of
`parseNmcliCurrentOutput` (main.go:421-436): split on `":"`, require at
least four fields, and require ACTIVE `"yes"` with a non-empty,
non-placeholder SSID. -/
def currentLineMatch (line : String) : Option CurrentWiFi :=
  let parts := goSplit line ':'
  if parts.length ≥ 4 then
    let active := parts.getD 0 ""
    let ssid := parts.getD 1 ""
    let signal := parts.getD 2 ""
    let security := parts.getD 3 ""
    if active = "yes" ∧ ssid ≠ "" ∧ ssid ≠ "--" then
      some ⟨ssid, signal ++ "%", normalizeSecurityType security, true⟩
    else none
  else none

/-- The loop of `parseNmcliCurrentOutput` (main.go:415-438): scan the lines
in order, skip blank lines, and stop at the first matching line (`break`);
when no line matches, the zero-value record (`Connected = false`) is
returned. -/
def parseNmcliCurrentLines : List String → CurrentWiFi
  | [] => ⟨"", "", "", false⟩
  | l :: ls =>
    let t := goTrimSpace l
    if t = "" then parseNmcliCurrentLines ls
    else
      match currentLineMatch t with
      | some w => w
      | none => parseNmcliCurrentLines ls

/-- `parseNmcliCurrentOutput` (main.go:411-441). -/
def parseNmcliCurrentOutput (output : String) : CurrentWiFi :=
  parseNmcliCurrentLines (goSplit output '\n')

/-- `getCurrentWiFi` (main.go:400-409).  The nmcli invocation is modelled
by its result: `Except.error msg` a failed command, `Except.ok output`
its standard output.  On command failure the function returns
`&CurrentWiFi{Connected: false}` and a `nil` error — it never returns a
non-`nil` error. -/
def getCurrentWiFi (cmdResult : Except String String) : Except String CurrentWiFi :=
  match cmdResult with
  | .error _ => .ok ⟨"", "", "", false⟩
  | .ok output => .ok (parseNmcliCurrentOutput output)

/-- The three response shapes of `getCurrentWiFiHandler`
(main.go:171-188): 503 with an error body, 500 with an error body, or
200 with the `CurrentWiFi` body. -/
inductive WiFiCurrentResponse where
  | unavailable503 (msg : String)
  | internalError500 (msg : String)
  | ok200 (w : CurrentWiFi)
deriving DecidableEq, Repr

/-- `getCurrentWiFiHandler` (main.go:171-188): 503 when nmcli is
unavailable, 500 when `getCurrentWiFi` returns an error, otherwise 200
with the looked-up record. -/
def getCurrentWiFiHandler (nmcliAvailable : Bool)
    (cmdResult : Except String String) : WiFiCurrentResponse :=
  if !nmcliAvailable then
    .unavailable503 "nmcli is not installed or not available"
  else
    match getCurrentWiFi cmdResult with
    | .error e => .internalError500 e
    | .ok w => .ok200 w

/-! ## WiFi connect (`connectToWiFi`, main.go:443-466) -/

/-- `connectToWiFi` (main.go:443-466), up to the point where the external
command is run: the `switch` on the security string either builds the
`nmcli` argument vector (returned as `Except.ok` — program name followed
by the discrete argument list, exactly as passed to `exec.Command`) or
returns the `unsupported security type` error (`Except.error`) without
building any command. -/
def connectToWiFi (ssid password security : String) : Except String (List String) :=
  if security = "Open" then
    .ok ["nmcli", "dev", "wifi", "connect", ssid]
  else if security = "WEP" then
    .ok ["nmcli", "dev", "wifi", "connect", ssid, "password", password]
  else if security = "WPA" ∨ security = "WPA2" ∨ security = "WPA3" then
    .ok ["nmcli", "dev", "wifi", "connect", ssid, "password", password]
  else
    .error ("unsupported security type: " ++ security)

/-! ## Process listing (`parsePsAuxOutput` main.go:486-531,
`parsePsEfOutput` main.go:533-575) -/

/-- The name extraction inlined in both ps parsers (main.go:513-517 and
main.go:557-561): `strings.Index(command, " ")` followed by
`command[:spaceIndex]` when that index is positive; the whole command
string is kept when there is no space or the first space is at index 0. -/
def deriveProcessName (command : String) : String :=
  match command.toList.findIdx? (fun c => c = ' ') with
  | some i => if 0 < i then String.mk (command.toList.take i) else command
  | none => command

/-- The per-line body of `parsePsAuxOutput` (main.go:495-527), after the
header/blank-line skip: split into whitespace fields, require at least
11 of them, take USER/PID/%CPU/%MEM/STAT, rejoin the command columns,
and drop the line when the PID field does not parse. -/
def psAuxLine (line : String) : Option Process :=
  let fields := goFields line
  if fields.length < 11 then none
  else
    let user := fields.getD 0 ""
    let pidStr := fields.getD 1 ""
    let cpu := fields.getD 2 ""
    let mem := fields.getD 3 ""
    let status := fields.getD 7 ""
    let command := goJoin (fields.drop 10) " "
    match goAtoi pidStr with
    | none => none
    | some pid =>
      some ⟨pid, deriveProcessName command, status, cpu ++ "%", mem ++ "%", user, command⟩

/-- The loop of `parsePsAuxOutput` (main.go:490-528): the line at index 0
(the header) and blank lines are skipped; every other line contributes a
record exactly when `psAuxLine` accepts it. -/
def parsePsAuxLines : Nat → List String → List Process
  | _, [] => []
  | i, l :: ls =>
    if i = 0 ∨ goTrimSpace l = "" then parsePsAuxLines (i + 1) ls
    else
      match psAuxLine l with
      | some p => p :: parsePsAuxLines (i + 1) ls
      | none => parsePsAuxLines (i + 1) ls

/-- `parsePsAuxOutput` (main.go:486-531).  The Go function also returns an
error value, which is `nil` on every path; the error is therefore
omitted from the model. -/
def parsePsAuxOutput (output : String) : List Process :=
  parsePsAuxLines 0 (goSplit output '\n')

/-- The per-line body of `parsePsEfOutput` (main.go:542-571): at least 8
whitespace fields, UID/PID, command rejoined from column 7 on, fixed
status `"R"` and `"0%"` CPU/memory; the line is dropped when the PID
field does not parse. -/
def psEfLine (line : String) : Option Process :=
  let fields := goFields line
  if fields.length < 8 then none
  else
    let user := fields.getD 0 ""
    let pidStr := fields.getD 1 ""
    let command := goJoin (fields.drop 7) " "
    match goAtoi pidStr with
    | none => none
    | some pid =>
      some ⟨pid, deriveProcessName command, "R", "0%", "0%", user, command⟩

/-- The loop of `parsePsEfOutput` (main.go:537-572). -/
def parsePsEfLines : Nat → List String → List Process
  | _, [] => []
  | i, l :: ls =>
    if i = 0 ∨ goTrimSpace l = "" then parsePsEfLines (i + 1) ls
    else
      match psEfLine l with
      | some p => p :: parsePsEfLines (i + 1) ls
      | none => parsePsEfLines (i + 1) ls

/-- `parsePsEfOutput` (main.go:533-575). -/
def parsePsEfOutput (output : String) : List Process :=
  parsePsEfLines 0 (goSplit output '\n')

/-! ## Interface enumeration (`getNetworkInterfaces`, main.go:280-326) -/

/-- One address of an interface, as the Go code inspects it: whether the
`net.Addr` is a `*net.IPNet`, whether its IP is a loopback address,
whether `IP.To4()` is non-nil (an IPv4 address), and its string form. -/
structure GoAddr where
  isIPNet : Bool
  ipLoopback : Bool
  ipIsV4 : Bool
  ipString : String
deriving DecidableEq, Repr

/-- One interface as reported by `net.Interfaces()`: its name, its
loopback and up flags, and the result of `iface.Addrs()` (`Except.error`
when the call fails). -/
structure GoIface where
  name : String
  loopback : Bool
  up : Bool
  addrs : Except Unit (List GoAddr)

/-- The address-collecting loop of `getNetworkInterfaces`
(main.go:298-306): `ipAddrs` starts as a `nil` slice (`none`) and each
qualifying address (an `IPNet`, not loopback, with an IPv4 address) is
appended, `append` on `nil` producing a non-nil one-element slice. -/
def collectIPv4 : Option (List String) → List GoAddr → Option (List String)
  | acc, [] => acc
  | acc, a :: rest =>
    if a.isIPNet && !a.ipLoopback && a.ipIsV4 then
      collectIPv4 (some (acc.getD [] ++ [a.ipString])) rest
    else collectIPv4 acc rest

/-- The `nil`-slice guard of `getNetworkInterfaces` (main.go:308-311):
`if ipAddrs == nil { ipAddrs = []string{} }`. -/
def fixNilSlice (o : Option (List String)) : Option (List String) :=
  if o = none then some [] else o

/-- `getNetworkInterfaces` (main.go:280-326) over the modelled
`net.Interfaces()` result: loopback interfaces are skipped, interfaces
whose `Addrs()` call fails are skipped, and each remaining interface
yields a record with its collected IPv4 addresses and an up/down
status. -/
def getNetworkInterfaces (ifaces : List GoIface) : List NetworkInterface :=
  ifaces.filterMap fun iface =>
    if iface.loopback then none
    else
      match iface.addrs with
      | .error _ => none
      | .ok addrList =>
        some ⟨iface.name, fixNilSlice (collectIPv4 none addrList),
          if iface.up then "up" else "down"⟩

/-! ## Helper lemmas -/

theorem stringMk_toList (s : String) : String.mk s.toList = s := rfl

theorem toList_stringMk (l : List Char) : (String.mk l).toList = l := rfl

theorem charOfNat_toNat_upper : ∀ m < 91, 65 ≤ m → (Char.ofNat m).toNat = m := by decide

theorem goToUpperChar_eq_dash {c : Char} (h : goToUpperChar c = '-') : c = '-' := by
  unfold goToUpperChar at h
  split at h
  · exfalso
    rename_i hc
    have h45 : (Char.ofNat (c.toNat - 32)).toNat = c.toNat - 32 :=
      charOfNat_toNat_upper _ (by omega) (by omega)
    rw [h] at h45
    have hdash : ('-' : Char).toNat = 45 := by decide
    omega
  · exact h

theorem goToUpper_eq_empty {s : String} (h : goToUpper s = "") : s = "" := by
  have hl : s.toList.map goToUpperChar = [] := congrArg String.toList h
  rw [List.map_eq_nil_iff] at hl
  have := congrArg String.mk hl
  simpa [stringMk_toList] using this

theorem map_upperChar_eq_dashdash :
    ∀ l : List Char, l.map goToUpperChar = ['-', '-'] → l = ['-', '-']
  | [], h => by simp at h
  | [_], h => by simp at h
  | _ :: _ :: _ :: _, h => by simp at h
  | [c, d], h => by
    simp only [List.map_cons, List.map_nil, List.cons.injEq, and_true] at h
    rw [goToUpperChar_eq_dash h.1, goToUpperChar_eq_dash h.2]

theorem goToUpper_eq_dashdash {s : String} (h : goToUpper s = "--") : s = "--" := by
  have hl : s.toList.map goToUpperChar = ['-', '-'] := congrArg String.toList h
  have h2 := map_upperChar_eq_dashdash s.toList hl
  rw [← stringMk_toList s, h2]

theorem listIsPrefixOf_map (f : Char → Char) :
    ∀ l₁ l₂ : List Char, l₁.isPrefixOf l₂ = true → (l₁.map f).isPrefixOf (l₂.map f) = true
  | [], l₂, _ => by simp [List.isPrefixOf]
  | a :: as, [], h => by simp [List.isPrefixOf] at h
  | a :: as, b :: bs, h => by
    simp only [List.isPrefixOf, Bool.and_eq_true, beq_iff_eq] at h
    simp only [List.map_cons, List.isPrefixOf, Bool.and_eq_true, beq_iff_eq]
    exact ⟨by rw [h.1], listIsPrefixOf_map f as bs h.2⟩

theorem containsCL_map (f : Char → Char) :
    ∀ hay needle : List Char, containsCL hay needle = true →
      containsCL (hay.map f) (needle.map f) = true
  | [], needle, h => by
    simp only [containsCL, List.isEmpty_iff] at h
    subst h
    rfl
  | c :: t, needle, h => by
    simp only [containsCL, Bool.or_eq_true] at h
    rcases h with h | h
    · have := listIsPrefixOf_map f needle (c :: t) h
      simp only [List.map_cons, containsCL, Bool.or_eq_true]
      left
      simpa using this
    · simp only [List.map_cons, containsCL, Bool.or_eq_true]
      right
      exact containsCL_map f t needle h

theorem goContains_toUpper {s sub : String}
    (hsub : sub.toList.map goToUpperChar = sub.toList)
    (h : goContains s sub = true) : goContains (goToUpper s) sub = true := by
  unfold goContains at h ⊢
  unfold goToUpper
  rw [toList_stringMk]
  have := containsCL_map goToUpperChar s.toList sub.toList h
  rwa [hsub] at this

theorem normalizeSecurityType_range (s : String) :
    normalizeSecurityType s = "WPA3" ∨ normalizeSecurityType s = "WPA2" ∨
    normalizeSecurityType s = "WPA" ∨ normalizeSecurityType s = "WEP" ∨
    normalizeSecurityType s = "Open" ∨ normalizeSecurityType s = "Unknown" := by
  unfold normalizeSecurityType
  split_ifs <;> simp

/-! ## Claim theorems -/

/-- C1: `normalizeSecurityType` performs a case-insensitive containment
test in priority order WPA3 > WPA2 > WPA > WEP (in particular a string
containing both `"WPA2"` and `"WPA3"` resolves to `"WPA3"`); the empty
string and `"--"` map to `"Open"`, and any other string matching none of
the four tokens maps to `"Unknown"`. -/
theorem normalizeSecurity_priority_claim (s : String) :
    (goContains (goToUpper s) "WPA3" = true → normalizeSecurityType s = "WPA3") ∧
    (goContains s "WPA2" = true → goContains s "WPA3" = true →
      normalizeSecurityType s = "WPA3") ∧
    (goContains (goToUpper s) "WPA3" = false → goContains (goToUpper s) "WPA2" = true →
      normalizeSecurityType s = "WPA2") ∧
    (goContains (goToUpper s) "WPA3" = false → goContains (goToUpper s) "WPA2" = false →
      goContains (goToUpper s) "WPA" = true → normalizeSecurityType s = "WPA") ∧
    (goContains (goToUpper s) "WPA3" = false → goContains (goToUpper s) "WPA2" = false →
      goContains (goToUpper s) "WPA" = false → goContains (goToUpper s) "WEP" = true →
      normalizeSecurityType s = "WEP") ∧
    (normalizeSecurityType "" = "Open" ∧ normalizeSecurityType "--" = "Open") ∧
    (goContains (goToUpper s) "WPA3" = false → goContains (goToUpper s) "WPA2" = false →
      goContains (goToUpper s) "WPA" = false → goContains (goToUpper s) "WEP" = false →
      s ≠ "" → s ≠ "--" → normalizeSecurityType s = "Unknown") := by
  refine ⟨?_, ?_, ?_, ?_, ?_, ⟨by decide, by decide⟩, ?_⟩
  · intro h
    simp [normalizeSecurityType, h]
  · intro _ h3
    have hup := goContains_toUpper (by decide) h3
    simp [normalizeSecurityType, hup]
  · intro h3 h2
    simp [normalizeSecurityType, h3, h2]
  · intro h3 h2 h1
    simp [normalizeSecurityType, h3, h2, h1]
  · intro h3 h2 h1 h0
    simp [normalizeSecurityType, h3, h2, h1, h0]
  · intro h3 h2 h1 h0 hne hnd
    simp only [normalizeSecurityType, h3, h2, h1, h0, if_false, Bool.false_eq_true]
    rw [if_neg]
    rintro (h | h)
    · exact hne (goToUpper_eq_empty h)
    · exact hnd (goToUpper_eq_dashdash h)

/-- Witness for C1 at concrete inputs: a string containing both `wpa2` and
`WPA3` normalizes to `"WPA3"`, and a token-free non-placeholder string
normalizes to `"Unknown"`. -/
theorem normalizeSecurity_priority_claim_witness :
    normalizeSecurityType "wpa2 WPA3" = "WPA3" ∧ normalizeSecurityType "foo" = "Unknown" :=
  ⟨(normalizeSecurity_priority_claim "wpa2 WPA3").1 (by decide),
   (normalizeSecurity_priority_claim "foo").2.2.2.2.2.2
     (by decide) (by decide) (by decide) (by decide) (by decide) (by decide)⟩

/-- C2 counterexample: `normalizeSecurityType` is not idempotent — the
input `"--"` normalizes to `"Open"`, but normalizing `"Open"` again
yields `"Unknown"`, not `"Open"`. -/
theorem normalizeSecurity_not_idempotent :
    normalizeSecurityType (normalizeSecurityType "--") ≠ normalizeSecurityType "--" := by
  decide

/-- C2 (amended): `normalizeSecurityType` is idempotent on every input
whose normalization is not `"Open"`; each of the outputs `"WPA3"`,
`"WPA2"`, `"WPA"`, `"WEP"` and `"Unknown"` is a fixed point, but the
output `"Open"` re-normalizes to `"Unknown"`. -/
theorem normalizeSecurity_idem_except_open :
    (∀ s, normalizeSecurityType s ≠ "Open" →
      normalizeSecurityType (normalizeSecurityType s) = normalizeSecurityType s) ∧
    (∀ v ∈ (["WPA3", "WPA2", "WPA", "WEP", "Unknown"] : List String),
      normalizeSecurityType v = v) ∧
    normalizeSecurityType "Open" = "Unknown" := by
  refine ⟨?_, by decide, by decide⟩
  intro s hs
  rcases normalizeSecurityType_range s with h | h | h | h | h | h
  · rw [h]; decide
  · rw [h]; decide
  · rw [h]; decide
  · rw [h]; decide
  · exact absurd h hs
  · rw [h]; decide

/-- Witness for C2 (amended) at the concrete input `"wpa2"`. -/
theorem normalizeSecurity_idem_except_open_witness :
    normalizeSecurityType (normalizeSecurityType "wpa2") = normalizeSecurityType "wpa2" :=
  normalizeSecurity_idem_except_open.1 "wpa2" (by decide)

/-- C3 counterexample: on `"MyNet:67:WPA2\n--:80:\n\nHome:45:"` with
delimiter `:` and minFields 3 the generic parser yields three records,
not two: only the blank line is dropped, while `"--:80:"` and
`"Home:45:"` both split into three fields (the trailing empty field
counts). -/
theorem parseDelimitedRecords_three_records :
    parseDelimitedRecords "MyNet:67:WPA2\n--:80:\n\nHome:45:" ':' 3 =
      [["MyNet", "67", "WPA2"], ["--", "80", ""], ["Home", "45", ""]] ∧
    ([["MyNet", "67", "WPA2"], ["--", "80", ""], ["Home", "45", ""]] :
      List (List String)).length ≠ 2 := by
  constructor
  · decide
  · decide

/-- C3 (amended): on that input the generic parser keeps three records
(dropping only the blank line, there being no too-short line), the
`"--"`-SSID record among them; the WiFi-specific parse then excludes the
`"--"` record downstream and produces exactly the networks `"MyNet"` and
`"Home"`. -/
theorem parseDelimitedRecords_vs_wifi_filter :
    parseDelimitedRecords "MyNet:67:WPA2\n--:80:\n\nHome:45:" ':' 3 =
      [["MyNet", "67", "WPA2"], ["--", "80", ""], ["Home", "45", ""]] ∧
    (["--", "80", ""] : List String).length ≥ 3 ∧
    parseNmcliOutput "MyNet:67:WPA2\n--:80:\n\nHome:45:" =
      [⟨"MyNet", "67%", "WPA2"⟩, ⟨"Home", "45%", "Open"⟩] := by
  refine ⟨by decide, by decide, by decide⟩

/-- C5 counterexample: with nmcli available and the underlying nmcli query
failing, `getCurrentWiFi` swallows the failure (it returns a disconnected
record and a nil error), so the handler responds 200 with
`connected = false` — not 500. -/
theorem currentWiFi_failure_not_500 :
    getCurrentWiFi (Except.error "exit status 1") = Except.ok ⟨"", "", "", false⟩ ∧
    getCurrentWiFiHandler true (Except.error "exit status 1") =
      WiFiCurrentResponse.ok200 ⟨"", "", "", false⟩ :=
  ⟨rfl, rfl⟩

/-- C5 (amended): the handler responds 503 exactly when nmcli is
unavailable; `getCurrentWiFi` never returns an error (a failing query is
mapped to a disconnected record with a nil error), so the handler's 500
branch is unreachable and a failing query yields 200 with
`connected = false`. -/
theorem currentWiFi_handler_statuses :
    (∀ res : Except String String, ∃ w, getCurrentWiFi res = Except.ok w) ∧
    (∀ msg, getCurrentWiFi (Except.error msg) = Except.ok ⟨"", "", "", false⟩) ∧
    (∀ (avail : Bool) (res : Except String String),
      (∃ m, getCurrentWiFiHandler avail res = WiFiCurrentResponse.unavailable503 m) ↔
        avail = false) ∧
    (∀ msg, getCurrentWiFiHandler true (Except.error msg) =
      WiFiCurrentResponse.ok200 ⟨"", "", "", false⟩) := by
  refine ⟨?_, fun _ => rfl, ?_, fun _ => rfl⟩
  · intro res
    cases res with
    | error _ => exact ⟨_, rfl⟩
    | ok output => exact ⟨_, rfl⟩
  · intro avail res
    cases avail with
    | false => simp [getCurrentWiFiHandler]
    | true =>
      simp only [getCurrentWiFiHandler, Bool.not_true, Bool.false_eq_true, if_false]
      constructor
      · rintro ⟨m, hm⟩
        cases hres : getCurrentWiFi res with
        | error e =>
          obtain ⟨w, hw⟩ : ∃ w, getCurrentWiFi res = Except.ok w := by
            cases res with
            | error _ => exact ⟨_, rfl⟩
            | ok output => exact ⟨_, rfl⟩
          rw [hw] at hres
          cases hres
        | ok w => rw [hres] at hm; cases hm
      · intro h
        cases h

/-- Witness for C5 (amended) at a concrete failing query. -/
theorem currentWiFi_handler_statuses_witness :
    getCurrentWiFiHandler true (Except.error "exit status 1: no wifi device") =
      WiFiCurrentResponse.ok200 ⟨"", "", "", false⟩ :=
  currentWiFi_handler_statuses.2.2.2 "exit status 1: no wifi device"

/-- C6: `connectToWiFi` accepts exactly the security values `"Open"`
(argument vector without a password), `"WEP"`, `"WPA"`, `"WPA2"` and
`"WPA3"` (password passed as a discrete element of the argument vector);
every other value — including case variants such as `"open"` — yields the
`unsupported security type` error and no command is built. -/
theorem connectToWiFi_accepted_values (ssid password security : String) :
    (security = "Open" →
      connectToWiFi ssid password security =
        Except.ok ["nmcli", "dev", "wifi", "connect", ssid]) ∧
    (security = "WEP" ∨ security = "WPA" ∨ security = "WPA2" ∨ security = "WPA3" →
      connectToWiFi ssid password security =
        Except.ok ["nmcli", "dev", "wifi", "connect", ssid, "password", password]) ∧
    (security ≠ "Open" → security ≠ "WEP" → security ≠ "WPA" → security ≠ "WPA2" →
      security ≠ "WPA3" →
      connectToWiFi ssid password security =
        Except.error ("unsupported security type: " ++ security)) := by
  refine ⟨?_, ?_, ?_⟩
  · rintro rfl
    rfl
  · rintro (rfl | rfl | rfl | rfl) <;> rfl
  · intro h1 h2 h3 h4 h5
    simp [connectToWiFi, h1, h2, h3, h4, h5]

/-- Witness for C6 at concrete inputs: a WPA2 connect builds the vector
with the password as its own element, and `"open"` is rejected. -/
theorem connectToWiFi_accepted_values_witness :
    connectToWiFi "MyNet" "hunter2" "WPA2" =
      Except.ok ["nmcli", "dev", "wifi", "connect", "MyNet", "password", "hunter2"] ∧
    connectToWiFi "MyNet" "hunter2" "open" =
      Except.error "unsupported security type: open" :=
  ⟨(connectToWiFi_accepted_values "MyNet" "hunter2" "WPA2").2.1 (Or.inr (Or.inr (Or.inl rfl))),
   (connectToWiFi_accepted_values "MyNet" "hunter2" "open").2.2
     (by decide) (by decide) (by decide) (by decide) (by decide)⟩

theorem parseNmcliCurrentLines_all_none :
    ∀ lines : List String, (∀ l ∈ lines, currentLineMatch (goTrimSpace l) = none) →
      parseNmcliCurrentLines lines = ⟨"", "", "", false⟩ := by
  intro lines
  induction lines with
  | nil => intro _; rfl
  | cons l ls ih =>
    intro h
    have hl := h l (List.mem_cons_self l ls)
    have hls := fun x hx => h x (List.mem_cons_of_mem l hx)
    simp only [parseNmcliCurrentLines]
    split
    · exact ih hls
    · rw [hl]
      exact ih hls

theorem parseNmcliCurrentLines_first :
    ∀ (pre : List String) (l : String) (post : List String) (w : CurrentWiFi),
      (∀ l' ∈ pre, currentLineMatch (goTrimSpace l') = none) →
      currentLineMatch (goTrimSpace l) = some w →
      parseNmcliCurrentLines (pre ++ l :: post) = w := by
  intro pre
  induction pre with
  | nil =>
    intro l post w _ hm
    simp only [List.nil_append, parseNmcliCurrentLines]
    have hne : goTrimSpace l ≠ "" := by
      intro he
      have hempty : currentLineMatch "" = none := by decide
      rw [he, hempty] at hm
      exact Option.noConfusion hm
    rw [if_neg hne, hm]
  | cons p ps ih =>
    intro l post w hpre hm
    have hp := hpre p (List.mem_cons_self p ps)
    have hps := fun x hx => hpre x (List.mem_cons_of_mem p hx)
    simp only [List.cons_append, parseNmcliCurrentLines]
    split
    · exact ih l post w hps hm
    · rw [hp]
      exact ih l post w hps hm

/-- C7: the parsed current-WiFi result is a single record determined by
the first line whose ACTIVE field is `"yes"` with a non-empty,
non-placeholder SSID (the scan stops there), and when no line matches,
the result has `connected = false`. -/
theorem currentWiFi_first_match_claim (output : String) :
    ((∀ l ∈ goSplit output '\n', currentLineMatch (goTrimSpace l) = none) →
      (parseNmcliCurrentOutput output).Connected = false) ∧
    (∀ (pre : List String) (l : String) (post : List String) (w : CurrentWiFi),
      (∀ l' ∈ pre, currentLineMatch (goTrimSpace l') = none) →
      currentLineMatch (goTrimSpace l) = some w →
      parseNmcliCurrentLines (pre ++ l :: post) = w) := by
  constructor
  · intro h
    unfold parseNmcliCurrentOutput
    rw [parseNmcliCurrentLines_all_none (goSplit output '\n') h]
  · exact parseNmcliCurrentLines_first

/-- Witness for C7: a scan with no active line is disconnected, and the
first active line wins over a later one. -/
theorem currentWiFi_first_match_claim_witness :
    (parseNmcliCurrentOutput "no:Net:50:WPA\n\nfoo").Connected = false ∧
    parseNmcliCurrentLines (["no:A:1:WPA"] ++ "yes:Home:72:WPA2" :: ["yes:Alt:10:WEP"]) =
      ⟨"Home", "72%", "WPA2", true⟩ :=
  ⟨(currentWiFi_first_match_claim "no:Net:50:WPA\n\nfoo").1 (by decide),
   (currentWiFi_first_match_claim "").2 ["no:A:1:WPA"] "yes:Home:72:WPA2" ["yes:Alt:10:WEP"]
     ⟨"Home", "72%", "WPA2", true⟩ (by decide) (by decide)⟩

theorem findIdx?_space :
    ∀ pre post : List Char, (∀ c ∈ pre, c ≠ ' ') →
      (pre ++ ' ' :: post).findIdx? (fun c => c = ' ') = some pre.length := by
  intro pre
  induction pre with
  | nil => intro post _; simp
  | cons c cs ih =>
    intro post h
    have hc : c ≠ ' ' := h c (List.mem_cons_self c cs)
    have hcs := fun x hx => h x (List.mem_cons_of_mem c hx)
    simp only [List.cons_append, List.findIdx?_cons, decide_eq_true_eq]
    rw [if_neg hc, List.findIdx?_succ, ih post hcs]
    simp [Nat.add_comm]

/-- C8 counterexample: on a command line beginning with a space the
first space is at index 0, the `spaceIndex > 0` guard fails, and the
whole string is returned — not the (empty) substring before the first
space. -/
theorem deriveProcessName_leading_space :
    deriveProcessName " abc" ≠ "" ∧ deriveProcessName " abc" = " abc" := by
  constructor
  · decide
  · decide

/-- C8 (amended): `deriveProcessName` returns the substring up to but
excluding the first space whenever that space occurs at a positive
index, and returns the whole string when there is no space or when the
string begins with a space; in particular
`deriveProcessName "nginx: worker process" = "nginx:"`. -/
theorem deriveProcessName_first_token_claim :
    (∀ pre post : List Char, pre ≠ [] → (∀ c ∈ pre, c ≠ ' ') →
      deriveProcessName (String.mk (pre ++ ' ' :: post)) = String.mk pre) ∧
    (∀ s : String, (∀ c ∈ s.toList, c ≠ ' ') → deriveProcessName s = s) ∧
    (∀ post : List Char,
      deriveProcessName (String.mk (' ' :: post)) = String.mk (' ' :: post)) ∧
    deriveProcessName "nginx: worker process" = "nginx:" := by
  refine ⟨?_, ?_, ?_, by decide⟩
  · intro pre post hne hpre
    simp only [deriveProcessName, toList_stringMk, findIdx?_space pre post hpre]
    rw [if_pos (List.length_pos.mpr hne), List.take_left]
  · intro s h
    have hnone : s.toList.findIdx? (fun c => c = ' ') = none := by
      rw [List.findIdx?_eq_none_iff]
      intro x hx
      simpa using h x hx
    simp only [deriveProcessName, hnone]
  · intro post
    simp [deriveProcessName, toList_stringMk, List.findIdx?_cons]

/-- Witness for C8 (amended) at concrete inputs. -/
theorem deriveProcessName_first_token_claim_witness :
    deriveProcessName (String.mk (['a', 'b'] ++ ' ' :: ['c'])) = String.mk ['a', 'b'] ∧
    deriveProcessName "nginx" = "nginx" :=
  ⟨deriveProcessName_first_token_claim.1 ['a', 'b'] ['c'] (by decide) (by decide),
   deriveProcessName_first_token_claim.2.1 "nginx" (by decide)⟩

theorem collectIPv4_mem :
    ∀ (addrs : List GoAddr) (acc : Option (List String)) (ip : String),
      ip ∈ (collectIPv4 acc addrs).getD [] →
      ip ∈ acc.getD [] ∨ ∃ a ∈ addrs, a.isIPNet = true ∧ a.ipLoopback = false ∧
        a.ipIsV4 = true ∧ ip = a.ipString := by
  intro addrs
  induction addrs with
  | nil => intro acc ip h; exact Or.inl h
  | cons a rest ih =>
    intro acc ip h
    simp only [collectIPv4] at h
    by_cases hq : (a.isIPNet && !a.ipLoopback && a.ipIsV4) = true
    · rw [if_pos hq] at h
      simp only [Bool.and_eq_true, Bool.not_eq_true'] at hq
      rcases ih _ ip h with h' | h'
      · simp only [Option.getD_some, List.mem_append, List.mem_singleton] at h'
        rcases h' with h'' | h''
        · exact Or.inl h''
        · exact Or.inr ⟨a, List.mem_cons_self a rest, hq.1.1, hq.1.2, hq.2, h''⟩
      · obtain ⟨b, hb, props⟩ := h'
        exact Or.inr ⟨b, List.mem_cons_of_mem a hb, props⟩
    · rw [if_neg hq] at h
      rcases ih _ ip h with h' | h'
      · exact Or.inl h'
      · obtain ⟨b, hb, props⟩ := h'
        exact Or.inr ⟨b, List.mem_cons_of_mem a hb, props⟩

theorem collectIPv4_no_qual :
    ∀ (addrs : List GoAddr) (acc : Option (List String)),
      (∀ a ∈ addrs, (a.isIPNet && !a.ipLoopback && a.ipIsV4) = false) →
      collectIPv4 acc addrs = acc := by
  intro addrs
  induction addrs with
  | nil => intro acc _; rfl
  | cons a rest ih =>
    intro acc h
    have ha := h a (List.mem_cons_self a rest)
    simp only [collectIPv4, ha, Bool.false_eq_true, if_false]
    exact ih acc fun x hx => h x (List.mem_cons_of_mem a hx)

theorem fixNilSlice_ne_none (o : Option (List String)) : fixNilSlice o ≠ none := by
  unfold fixNilSlice
  split
  · exact Option.noConfusion
  · assumption

/-- C9: every record that the interface enumeration produces has a
non-`nil` (never JSON-`null`) `ip_addresses` slice; each of its elements
originates from an IPv4, non-loopback `IPNet` address of one of the
enumerated interfaces, and an interface with no qualifying address gets
the empty (non-`nil`) slice. -/
theorem interfaces_ipaddrs_claim (ifaces : List GoIface) :
    (∀ rec ∈ getNetworkInterfaces ifaces,
      rec.IPAddrs ≠ none ∧
      ∀ ips, rec.IPAddrs = some ips → ∀ ip ∈ ips,
        ∃ iface ∈ ifaces, ∃ addrList, iface.addrs = Except.ok addrList ∧
          ∃ a ∈ addrList, a.isIPNet = true ∧ a.ipLoopback = false ∧
            a.ipIsV4 = true ∧ ip = a.ipString) ∧
    (∀ addrList : List GoAddr,
      (∀ a ∈ addrList, (a.isIPNet && !a.ipLoopback && a.ipIsV4) = false) →
      fixNilSlice (collectIPv4 none addrList) = some []) := by
  constructor
  · intro rec hrec
    rw [getNetworkInterfaces, List.mem_filterMap] at hrec
    obtain ⟨iface, hif, hf⟩ := hrec
    by_cases hl : iface.loopback
    · rw [if_pos hl] at hf
      exact Option.noConfusion hf
    · rw [if_neg hl] at hf
      cases haddr : iface.addrs with
      | error e => rw [haddr] at hf; exact Option.noConfusion hf
      | ok addrList =>
        rw [haddr] at hf
        have hrec' := (Option.some.inj hf).symm
        subst hrec'
        refine ⟨fixNilSlice_ne_none _, ?_⟩
        intro ips hips ip hip
        cases hc : collectIPv4 none addrList with
        | none =>
          rw [hc] at hips
          have : ips = [] := by
            have : fixNilSlice none = some [] := rfl
            rw [this] at hips
            exact (Option.some.inj hips).symm
          subst this
          exact absurd hip (List.not_mem_nil ip)
        | some l =>
          rw [hc] at hips
          have hips' : l = ips := by
            have : fixNilSlice (some l) = some l := rfl
            rw [this] at hips
            exact Option.some.inj hips
          subst hips'
          have hmem : ip ∈ (collectIPv4 none addrList).getD [] := by
            rw [hc]; exact hip
          rcases collectIPv4_mem addrList none ip hmem with h' | h'
          · exact absurd h' (List.not_mem_nil ip)
          · obtain ⟨a, ha, props⟩ := h'
            exact ⟨iface, hif, addrList, haddr, a, ha, props⟩
  · intro addrList h
    rw [collectIPv4_no_qual addrList none h]
    rfl

/-- Witness for C9 at a concrete interface list: the produced record's
slice is non-`nil`, and an interface with only non-qualifying addresses
gets the empty slice. -/
theorem interfaces_ipaddrs_claim_witness :
    (⟨"eth0", some ["10.0.0.2"], "up"⟩ : NetworkInterface).IPAddrs ≠ none ∧
    fixNilSlice (collectIPv4 none [⟨true, false, false, "fe80::1"⟩]) = some [] :=
  ⟨((interfaces_ipaddrs_claim
      [⟨"eth0", false, true, .ok [⟨true, false, true, "10.0.0.2"⟩]⟩]).1
      ⟨"eth0", some ["10.0.0.2"], "up"⟩ (by decide)).1,
   (interfaces_ipaddrs_claim []).2 [⟨true, false, false, "fe80::1"⟩] (by decide)⟩

/-- C10: both ps parsers silently skip a data line whose second
whitespace-delimited field does not parse as a decimal integer (no
record, no error), and every record either parser emits has a `pid`
equal to the parsed integer value of its line's second field. -/
theorem psParsers_pid_claim (line : String) :
    ((goFields line).length ≥ 11 → goAtoi ((goFields line).getD 1 "") = none →
      psAuxLine line = none) ∧
    (∀ p, psAuxLine line = some p → goAtoi ((goFields line).getD 1 "") = some p.PID) ∧
    ((goFields line).length ≥ 8 → goAtoi ((goFields line).getD 1 "") = none →
      psEfLine line = none) ∧
    (∀ p, psEfLine line = some p → goAtoi ((goFields line).getD 1 "") = some p.PID) ∧
    (∀ (i : Nat) (lines : List String) (p : Process), p ∈ parsePsAuxLines i lines →
      ∃ l ∈ lines, psAuxLine l = some p) ∧
    (∀ (i : Nat) (lines : List String) (p : Process), p ∈ parsePsEfLines i lines →
      ∃ l ∈ lines, psEfLine l = some p) := by
  refine ⟨?_, ?_, ?_, ?_, ?_, ?_⟩
  · intro hlen hnone
    simp only [psAuxLine]
    rw [if_neg (by omega), hnone]
  · intro p hp
    simp only [psAuxLine] at hp
    by_cases h11 : (goFields line).length < 11
    · rw [if_pos h11] at hp
      exact Option.noConfusion hp
    · rw [if_neg h11] at hp
      cases ha : goAtoi ((goFields line).getD 1 "") with
      | none => rw [ha] at hp; exact Option.noConfusion hp
      | some pid =>
        rw [ha] at hp
        have := Option.some.inj hp
        rw [← this]
  · intro hlen hnone
    simp only [psEfLine]
    rw [if_neg (by omega), hnone]
  · intro p hp
    simp only [psEfLine] at hp
    by_cases h8 : (goFields line).length < 8
    · rw [if_pos h8] at hp
      exact Option.noConfusion hp
    · rw [if_neg h8] at hp
      cases ha : goAtoi ((goFields line).getD 1 "") with
      | none => rw [ha] at hp; exact Option.noConfusion hp
      | some pid =>
        rw [ha] at hp
        have := Option.some.inj hp
        rw [← this]
  · intro i lines
    induction lines generalizing i with
    | nil => intro p hp; simp [parsePsAuxLines] at hp
    | cons l ls ih =>
      intro p hp
      simp only [parsePsAuxLines] at hp
      split at hp
      · obtain ⟨l', hl', h⟩ := ih (i + 1) p hp
        exact ⟨l', List.mem_cons_of_mem l hl', h⟩
      · split at hp
        · rename_i p' hp'
          rcases List.mem_cons.mp hp with heq | hmem
          · exact ⟨l, List.mem_cons_self l ls, by rw [hp', heq]⟩
          · obtain ⟨l', hl', h⟩ := ih (i + 1) p hmem
            exact ⟨l', List.mem_cons_of_mem l hl', h⟩
        · obtain ⟨l', hl', h⟩ := ih (i + 1) p hp
          exact ⟨l', List.mem_cons_of_mem l hl', h⟩
  · intro i lines
    induction lines generalizing i with
    | nil => intro p hp; simp [parsePsEfLines] at hp
    | cons l ls ih =>
      intro p hp
      simp only [parsePsEfLines] at hp
      split at hp
      · obtain ⟨l', hl', h⟩ := ih (i + 1) p hp
        exact ⟨l', List.mem_cons_of_mem l hl', h⟩
      · split at hp
        · rename_i p' hp'
          rcases List.mem_cons.mp hp with heq | hmem
          · exact ⟨l, List.mem_cons_self l ls, by rw [hp', heq]⟩
          · obtain ⟨l', hl', h⟩ := ih (i + 1) p hmem
            exact ⟨l', List.mem_cons_of_mem l hl', h⟩
        · obtain ⟨l', hl', h⟩ := ih (i + 1) p hp
          exact ⟨l', List.mem_cons_of_mem l hl', h⟩

/-- Witness for C10 at concrete lines: a non-numeric PID field yields no
record, and a record's pid equals its line's parsed second field. -/
theorem psParsers_pid_claim_witness :
    psAuxLine "root x 0.0 0.1 10 20 ? S 0:00 0:01 cmd" = none ∧
    goAtoi ((goFields "root 42 0.0 0.1 10 20 ? S 0:00 0:01 cmd").getD 1 "") =
      some (⟨42, "cmd", "S", "0.0%", "0.1%", "root", "cmd"⟩ : Process).PID :=
  ⟨(psParsers_pid_claim "root x 0.0 0.1 10 20 ? S 0:00 0:01 cmd").1
      (by decide) (by decide),
   (psParsers_pid_claim "root 42 0.0 0.1 10 20 ? S 0:00 0:01 cmd").2.1
      ⟨42, "cmd", "S", "0.0%", "0.1%", "root", "cmd"⟩ (by decide)⟩

theorem toList_append (a b : String) : (a ++ b).toList = a.toList ++ b.toList :=
  String.data_append a b

theorem toList_ne_nil {s : String} (h : s ≠ "") : s.toList ≠ [] := by
  intro he
  apply h
  rw [← stringMk_toList s, he]

theorem splitPCL_word_append (p : Char → Bool) :
    ∀ (w l : List Char) (hd : List Char) (tl : List (List Char)),
      (∀ c ∈ w, p c = false) → splitPCL p l = hd :: tl →
      splitPCL p (w ++ l) = (w ++ hd) :: tl := by
  intro w
  induction w with
  | nil => intro l hd tl _ h; simpa using h
  | cons c cs ih =>
    intro l hd tl hw h
    have hc := hw c (List.mem_cons_self c cs)
    have hcs := fun x hx => hw x (List.mem_cons_of_mem c hx)
    simp only [List.cons_append, splitPCL, hc, Bool.false_eq_true, if_false]
    rw [show cs.append l = cs ++ l from rfl, ih l hd tl hcs h]

theorem fieldsCL_word_append :
    ∀ (w rest : List Char), w ≠ [] → (∀ c ∈ w, goIsSpace c = false) →
      fieldsCL (w ++ ' ' :: rest) = w :: fieldsCL rest := by
  intro w rest hne hw
  have hsp : splitPCL goIsSpace (' ' :: rest) = [] :: splitPCL goIsSpace rest := by
    simp [splitPCL, goIsSpace]
  have := splitPCL_word_append goIsSpace w (' ' :: rest) [] (splitPCL goIsSpace rest) hw hsp
  unfold fieldsCL
  rw [this, List.append_nil, List.filter_cons]
  have : (!w.isEmpty) = true := by
    cases w with
    | nil => exact absurd rfl hne
    | cons a as => rfl
  rw [if_pos this]

theorem fieldsCL_word :
    ∀ w : List Char, w ≠ [] → (∀ c ∈ w, goIsSpace c = false) → fieldsCL w = [w] := by
  intro w hne hw
  have hemp : (!w.isEmpty) = true := by
    cases w with
    | nil => exact absurd rfl hne
    | cons a as => rfl
  have h0 : splitPCL goIsSpace ([] : List Char) = [] :: [] := rfl
  have hsp := splitPCL_word_append goIsSpace w [] [] [] hw h0
  rw [List.append_nil] at hsp
  unfold fieldsCL
  rw [hsp, List.filter_cons, if_pos hemp]
  rfl

theorem goFields_join :
    ∀ toks : List String,
      (∀ t ∈ toks, t ≠ "" ∧ ∀ c ∈ t.toList, goIsSpace c = false) →
      goFields (goJoin toks " ") = toks
  | [], _ => rfl
  | [t], h => by
    have ht := h t (List.mem_cons_self t [])
    show goFields t = [t]
    unfold goFields
    rw [fieldsCL_word t.toList (toList_ne_nil ht.1) ht.2]
    simp [stringMk_toList]
  | t :: t' :: rest, h => by
    have ht := h t (List.mem_cons_self t (t' :: rest))
    have hrest := fun x hx => h x (List.mem_cons_of_mem t hx)
    have ih := goFields_join (t' :: rest) hrest
    show goFields (t ++ " " ++ goJoin (t' :: rest) " ") = t :: t' :: rest
    unfold goFields
    have htl : (t ++ " " ++ goJoin (t' :: rest) " ").toList =
        t.toList ++ ' ' :: (goJoin (t' :: rest) " ").toList := by
      rw [toList_append, toList_append,
        show (" " : String).toList = [' '] from rfl, List.append_assoc]
      rfl
    rw [htl, fieldsCL_word_append t.toList _ (toList_ne_nil ht.1) ht.2]
    simp only [List.map_cons, stringMk_toList]
    rw [show (fieldsCL (goJoin (t' :: rest) " ").toList).map String.mk =
        goFields (goJoin (t' :: rest) " ") from rfl, ih]

theorem fieldsCL_all_space :
    ∀ l : List Char, (∀ c ∈ l, goIsSpace c = true) → fieldsCL l = [] := by
  intro l
  induction l with
  | nil => intro _; rfl
  | cons c cs ih =>
    intro h
    have hc := h c (List.mem_cons_self c cs)
    have hcs := fun x hx => h x (List.mem_cons_of_mem c hx)
    unfold fieldsCL
    simp only [splitPCL, hc, if_true, List.filter_cons]
    have : (!(List.nil (α := Char)).isEmpty) = false := rfl
    rw [if_neg (by simp)]
    exact ih hcs

theorem goTrimSpace_empty_all_space {s : String} (h : goTrimSpace s = "") :
    ∀ c ∈ s.toList, goIsSpace c = true := by
  intro c hc
  have hl : ((s.toList.dropWhile goIsSpace).reverse.dropWhile goIsSpace).reverse = [] :=
    congrArg String.toList h
  rw [List.reverse_eq_nil_iff, List.dropWhile_eq_nil_iff] at hl
  have hdw : ∀ x ∈ s.toList.dropWhile goIsSpace, goIsSpace x = true := by
    intro x hx
    exact hl x (List.mem_reverse.mpr hx)
  have hc' : c ∈ s.toList.takeWhile goIsSpace ++ s.toList.dropWhile goIsSpace := by
    rw [List.takeWhile_append_dropWhile]
    exact hc
  rcases List.mem_append.mp hc' with h1 | h2
  · exact List.mem_takeWhile_imp h1
  · exact hdw c h2

/-- C4 counterexample: a well-formed `ps aux` row whose command contains a
run of two spaces (`"a  b"`) still has at least 11 whitespace-separated
columns, but the parser re-joins the command columns with single spaces
and reconstructs `"a b"`, not the original command verbatim. -/
theorem psAux_roundtrip_counterexample :
    parsePsAuxOutput
        "USER PID %CPU %MEM VSZ RSS TTY STAT START TIME COMMAND\nroot 1 0.0 0.1 10 20 ? S 0:00 0:01 a  b" =
      [⟨1, "a", "S", "0.0%", "0.1%", "root", "a b"⟩] ∧
    ("a b" : String) ≠ "a  b" := by
  constructor
  · decide
  · decide

/-- C4 (amended): for a `ps aux` row built from 10 well-formed metadata
columns followed by a command whose tokens are separated by single
spaces (each token non-empty and white-space-free), and whose PID column
parses, the parse of header-plus-row yields exactly one record whose
`command` field equals the original command string verbatim.  (For
commands with runs of multiple spaces or other white space between
tokens, the reconstruction collapses the separators and the round trip
fails.) -/
theorem psAux_roundtrip_claim (hdr : String) (meta toks : List String) (pid : Int)
    (hmLen : meta.length = 10)
    (hm : ∀ t ∈ meta, t ≠ "" ∧ ∀ c ∈ t.toList, goIsSpace c = false)
    (htNe : toks ≠ [])
    (ht : ∀ t ∈ toks, t ≠ "" ∧ ∀ c ∈ t.toList, goIsSpace c = false)
    (hpid : goAtoi (meta.getD 1 "") = some pid) :
    ∃ p : Process,
      parsePsAuxLines 0 [hdr, goJoin (meta ++ toks) " "] = [p] ∧
      p.Command = goJoin toks " " ∧ p.PID = pid := by
  have hall : ∀ t ∈ meta ++ toks, t ≠ "" ∧ ∀ c ∈ t.toList, goIsSpace c = false := by
    intro t ht'
    rcases List.mem_append.mp ht' with h' | h'
    · exact hm t h'
    · exact ht t h'
  have hfields : goFields (goJoin (meta ++ toks) " ") = meta ++ toks :=
    goFields_join (meta ++ toks) hall
  have htoksLen : 0 < toks.length := List.length_pos.mpr htNe
  have hlen : ¬(goFields (goJoin (meta ++ toks) " ")).length < 11 := by
    rw [hfields, List.length_append, hmLen]
    omega
  have hgetD : (goFields (goJoin (meta ++ toks) " ")).getD 1 "" = meta.getD 1 "" := by
    rw [hfields]
    exact List.getD_append meta toks "" 1 (by omega)
  have hdrop : (goFields (goJoin (meta ++ toks) " ")).drop 10 = toks := by
    rw [hfields, ← hmLen, List.drop_left]
  have htrim : goTrimSpace (goJoin (meta ++ toks) " ") ≠ "" := by
    intro he
    have hsp := goTrimSpace_empty_all_space he
    have hf0 : fieldsCL (goJoin (meta ++ toks) " ").toList = [] :=
      fieldsCL_all_space _ hsp
    have : goFields (goJoin (meta ++ toks) " ") = [] := by
      unfold goFields
      rw [hf0]
      rfl
    rw [hfields] at this
    have : (meta ++ toks).length = 0 := by rw [this]; rfl
    rw [List.length_append, hmLen] at this
    omega
  have hline : psAuxLine (goJoin (meta ++ toks) " ") =
      some ⟨pid,
        deriveProcessName (goJoin ((goFields (goJoin (meta ++ toks) " ")).drop 10) " "),
        (goFields (goJoin (meta ++ toks) " ")).getD 7 "",
        (goFields (goJoin (meta ++ toks) " ")).getD 2 "" ++ "%",
        (goFields (goJoin (meta ++ toks) " ")).getD 3 "" ++ "%",
        (goFields (goJoin (meta ++ toks) " ")).getD 0 "",
        goJoin ((goFields (goJoin (meta ++ toks) " ")).drop 10) " "⟩ := by
    simp only [psAuxLine]
    rw [if_neg hlen, hgetD, hpid]
  refine ⟨⟨pid,
      deriveProcessName (goJoin ((goFields (goJoin (meta ++ toks) " ")).drop 10) " "),
      (goFields (goJoin (meta ++ toks) " ")).getD 7 "",
      (goFields (goJoin (meta ++ toks) " ")).getD 2 "" ++ "%",
      (goFields (goJoin (meta ++ toks) " ")).getD 3 "" ++ "%",
      (goFields (goJoin (meta ++ toks) " ")).getD 0 "",
      goJoin ((goFields (goJoin (meta ++ toks) " ")).drop 10) " "⟩, ?_, ?_, rfl⟩
  · simp only [parsePsAuxLines]
    rw [if_pos (Or.inl trivial), if_neg ?hskip]
    case hskip =>
      rintro (h1 | h2)
      · omega
      · exact htrim h2
    rw [hline]
  · show goJoin ((goFields (goJoin (meta ++ toks) " ")).drop 10) " " = goJoin toks " "
    rw [hdrop]

/-- Witness for C4 (amended) at a concrete row. -/
theorem psAux_roundtrip_claim_witness :
    ∃ p : Process,
      parsePsAuxLines 0
        ["HDR", goJoin (["root", "1", "0.0", "0.1", "10", "20", "?", "S", "0:00", "0:01"] ++
          ["a", "b"]) " "] = [p] ∧
      p.Command = goJoin ["a", "b"] " " ∧ p.PID = 1 :=
  psAux_roundtrip_claim "HDR" ["root", "1", "0.0", "0.1", "10", "20", "?", "S", "0:00", "0:01"]
    ["a", "b"] 1 (by decide) (by decide) (by decide) (by decide) (by decide)
